import Mathlib

/-!
Verification of the resilient database access layer of the ElectronTS-Training
repository: connection pool, migration runner, transaction manager,
error-recovery manager and health monitor.  Each section is a shallow
embedding of one source component; machine state (the JS `Map`, arrays,
the SQLite transaction) is made explicit, and the asynchronous polling
loops are modelled in discrete time (one poll per `setTimeout` tick).
-/

/-! ## ConnectionPool (src/src/main/services/connection-pool.ts)

The pool keeps a `Map` of connection infos (insertion ordered, modelled as a
list) and an array `available` of ids used as a stack (`push`/`pop` at the
end).  Connection ids are modelled as the order of creation. -/

structure PoolConfig where
  min : Nat
  max : Nat
  timeout : Nat
deriving Repr, DecidableEq

structure ConnectionInfo where
  id : Nat
  inUse : Bool
deriving Repr, DecidableEq

structure PoolState where
  connections : List ConnectionInfo
  available : List Nat
  nextId : Nat
  isInitialized : Bool
deriving Repr, DecidableEq

/-- Mark the connection with the given id as in use / not in use
(`connectionInfo.inUse = b` on the map entry). -/
def setInUse (id : Nat) (b : Bool) (conns : List ConnectionInfo) : List ConnectionInfo :=
  conns.map (fun c => if c.id = id then { c with inUse := b } else c)

/-- `createConnection`: opens a database, stores the info in the map and
pushes the fresh id onto the `available` array, returning the new id. -/
def createConnection (st : PoolState) : PoolState × Nat :=
  let id := st.nextId
  ({ st with
      connections := st.connections ++ [⟨id, false⟩]
      available := st.available ++ [id]
      nextId := id + 1 }, id)

/-- `initialize`: creates `min` connections and sets the initialized flag;
returns unchanged if already initialized. -/
def initializePool (cfg : PoolConfig) (st : PoolState) : PoolState :=
  if st.isInitialized then st
  else
    let st := (List.range cfg.min).foldl (fun s _ => (createConnection s).1) st
    { st with isInitialized := true }

/-- The fresh pool state before `initialize` has run. -/
def emptyPool : PoolState := ⟨[], [], 0, false⟩

inductive AcquireOutcome where
  | acquired (id : Nat)
  | wait
deriving Repr, DecidableEq

/-- `getConnection` (the synchronous part, before `waitForConnection`):
pop an available id if any; otherwise if `connections.size < max`
create a connection and mark it in use — the source never removes the
freshly pushed id from `available` on this path; otherwise the caller
enters `waitForConnection`. -/
def getConnection (cfg : PoolConfig) (st : PoolState) : PoolState × AcquireOutcome :=
  let st := initializePool cfg st
  match st.available.getLast? with
  | some id =>
      ({ st with
          available := st.available.dropLast
          connections := setInUse id true st.connections }, .acquired id)
  | none =>
      if st.connections.length < cfg.max then
        let (st1, id) := createConnection st
        ({ st1 with connections := setInUse id true st1.connections }, .acquired id)
      else
        (st, .wait)

/-- `releaseConnection`: if the handle belongs to the map, clear its busy
flag and push its id onto `available`; unknown handles are ignored. -/
def releaseConnection (id : Nat) (st : PoolState) : PoolState :=
  if st.connections.any (fun c => c.id = id) then
    { st with
        connections := setInUse id false st.connections
        available := st.available ++ [id] }
  else st

structure PoolStats where
  total : Nat
  available : Nat
  inUse : Nat
  min : Nat
  max : Nat
deriving Repr, DecidableEq

/-- `getStats`. -/
def getStats (cfg : PoolConfig) (st : PoolState) : PoolStats :=
  { total := st.connections.length
    available := st.available.length
    inUse := (st.connections.filter (fun c => c.inUse)).length
    min := cfg.min
    max := cfg.max }

/-- `waitForConnection`, in discrete time: one probe per `setTimeout` tick
(interval 10ms in the source).  `availableAt t` says whether a released
handle is waiting at probe time `t`.  The source checks availability
first, then rejects once `elapsed > timeout`.  `fuel` bounds the number of
probes so the function is total; `none` means the fuel ran out. -/
inductive WaitOutcome where
  | acquired (t : Nat)
  | timedOut (t : Nat)
deriving Repr, DecidableEq

def waitForConnection (availableAt : Nat → Bool) (timeout interval : Nat) :
    Nat → Nat → Option WaitOutcome
  | 0, _ => none
  | fuel + 1, t =>
      if availableAt t then some (.acquired t)
      else if timeout < t then some (.timedOut t)
      else waitForConnection availableAt timeout interval fuel (t + interval)

/-- Run a list of pool commands (true = getConnection, ignoring the handle;
an id = releaseConnection of that id). -/
def acquireN (cfg : PoolConfig) (st : PoolState) : Nat → PoolState
  | 0 => st
  | n + 1 => acquireN cfg (getConnection cfg st).1 n

/-- The pool configuration of the spec scenario. -/
def cfg25 : PoolConfig := ⟨2, 5, 50⟩

/-- A pool genuinely saturated at `max = 5`: five connections, all busy,
none listed available. -/
def saturatedPool : PoolState :=
  ⟨[⟨0, true⟩, ⟨1, true⟩, ⟨2, true⟩, ⟨3, true⟩, ⟨4, true⟩], [], 5, true⟩

/-- C1.  The pool-stats invariant `available + inUse == total` is broken by
the code: `getConnection`'s grow path (`connections.size < max`) calls
`createConnection`, which pushes the new id onto `available`, and then marks
the connection in use without removing the id from `available`.  After
initializing with `min = 2` and three `getConnection` calls the stats are
`total = 3, available = 1, inUse = 3`, so `available + inUse = 4 ≠ 3 = total`
(while `total ≤ max` does hold there). -/
theorem connectionPool_stats_invariant_violated :
    getStats cfg25 (acquireN cfg25 (initializePool cfg25 emptyPool) 3) =
      ⟨3, 1, 3, 2, 5⟩ ∧
    ¬ ((getStats cfg25 (acquireN cfg25 (initializePool cfg25 emptyPool) 3)).available +
        (getStats cfg25 (acquireN cfg25 (initializePool cfg25 emptyPool) 3)).inUse =
        (getStats cfg25 (acquireN cfg25 (initializePool cfg25 emptyPool) 3)).total) := by
  constructor
  · rfl
  · decide

/-- C2.  In the spec scenario (`min = 2, max = 5, timeout = 50`), five
`getConnection` calls do not saturate the pool: the grow path leaves each
freshly created connection's id in `available`, so two of the five calls
just pop an id of a connection that is already in use.  The sixth call pops
the id `3` left by the fifth call and returns it immediately (`total = 4`),
instead of timing out.  On a pool that really is saturated (`total = max`,
nothing available) `getConnection` does enter the polling wait, and with no
release the poll loop (interval 10ms) rejects at `t = 60`, the first probe
time strictly beyond the 50ms timeout. -/
theorem connectionPool_sixth_acquire_does_not_time_out :
    (getConnection cfg25 (acquireN cfg25 (initializePool cfg25 emptyPool) 5)).2 =
      .acquired 3 ∧
    (getStats cfg25 (acquireN cfg25 (initializePool cfg25 emptyPool) 5)).total = 4 ∧
    (getConnection cfg25 saturatedPool).2 = .wait ∧
    waitForConnection (fun _ => false) 50 10 8 0 = some (.timedOut 60) := by
  refine ⟨rfl, rfl, rfl, rfl⟩

/-! ## TransactionManager (src/unnamed/part_010, class TransactionManager)

The SQLite session state is modelled explicitly: a committed state plus an
optional open transaction consisting of the working state and a savepoint
stack (most recent first; each entry is the savepoint name and a snapshot
of the working state when it was created).  `exec` statements that throw in
the source are primitives returning the (possibly unchanged) state together
with an optional error.  Savepoints are only ever used inside an open
`BEGIN TRANSACTION` in the source (`executeNestedTransaction` runs inside
`executeTransaction`), so the model reports an error for savepoint
statements outside a transaction. -/

structure TxDb (σ : Type) where
  committed : σ
  tx : Option (σ × List (String × σ))
deriving Repr

def TxDb.inTransaction {σ : Type} (db : TxDb σ) : Bool := db.tx.isSome

/-- `BEGIN TRANSACTION`. -/
def beginTx {σ : Type} (db : TxDb σ) : TxDb σ × Option String :=
  match db.tx with
  | some _ => (db, some "cannot start a transaction within a transaction")
  | none => ({ db with tx := some (db.committed, []) }, none)

/-- `COMMIT`. -/
def commitTx {σ : Type} (db : TxDb σ) : TxDb σ × Option String :=
  match db.tx with
  | some (w, _) => (⟨w, none⟩, none)
  | none => (db, some "cannot commit - no transaction is active")

/-- `ROLLBACK`. -/
def rollbackTx {σ : Type} (db : TxDb σ) : TxDb σ × Option String :=
  match db.tx with
  | some _ => ({ db with tx := none }, none)
  | none => (db, some "cannot rollback - no transaction is active")

/-- `SAVEPOINT name` (inside an open transaction). -/
def createSavepoint {σ : Type} (name : String) (db : TxDb σ) : TxDb σ × Option String :=
  match db.tx with
  | some (w, sps) => ({ db with tx := some (w, (name, w) :: sps) }, none)
  | none => (db, some ("Failed to create savepoint " ++ name))

/-- Pop stack entries down to the most recent one named `name`, returning
its snapshot and the stack strictly below it. -/
def popToName {σ : Type} (name : String) : List (String × σ) → Option (σ × List (String × σ))
  | [] => none
  | (n, s) :: rest => if n = name then some (s, rest) else popToName name rest

/-- `ROLLBACK TO SAVEPOINT name`: the working state reverts to the snapshot;
the savepoint itself stays on the stack, everything above it is discarded. -/
def rollbackToSavepoint {σ : Type} (name : String) (db : TxDb σ) : TxDb σ × Option String :=
  match db.tx with
  | some (_, sps) =>
      match popToName name sps with
      | some (snap, rest) => ({ db with tx := some (snap, (name, snap) :: rest) }, none)
      | none => (db, some ("Failed to rollback to savepoint " ++ name))
  | none => (db, some ("Failed to rollback to savepoint " ++ name))

/-- `RELEASE SAVEPOINT name`: the named savepoint and everything above it
are removed; the working state is unchanged. -/
def releaseSavepoint {σ : Type} (name : String) (db : TxDb σ) : TxDb σ × Option String :=
  match db.tx with
  | some (w, sps) =>
      match popToName name sps with
      | some (_, rest) => ({ db with tx := some (w, rest) }, none)
      | none => (db, some ("Failed to release savepoint " ++ name))
  | none => (db, some ("Failed to release savepoint " ++ name))

/-- A unit of work handed to `executeTransaction`: a sequence of writes
against the database, possibly throwing part-way. -/
inductive WorkStep (σ : Type) where
  | write (f : σ → σ)
  | throwErr (msg : String)

/-- A write statement: applied to the working state inside a transaction,
to the committed state otherwise (autocommit). -/
def execWrite {σ : Type} (f : σ → σ) (db : TxDb σ) : TxDb σ :=
  match db.tx with
  | some (w, sps) => { db with tx := some (f w, sps) }
  | none => { db with committed := f db.committed }

/-- Run the steps of a unit of work against the session, stopping at the
first thrown error (the earlier writes stay in the working state, exactly
like the partial writes of a throwing work function). -/
def runSteps {σ : Type} : List (WorkStep σ) → TxDb σ → TxDb σ × Option String
  | [], db => (db, none)
  | .write f :: rest, db => runSteps rest (execWrite f db)
  | .throwErr m :: _, db => (db, some m)

/-- The same unit of work on a bare state, to express what the steps do. -/
def runStepsPure {σ : Type} : List (WorkStep σ) → σ → σ × Option String
  | [], s => (s, none)
  | .write f :: rest, s => runStepsPure rest (f s)
  | .throwErr m :: _, s => (s, some m)

/-- `TransactionManager.safeRollback`: roll back only when
`db.inTransaction` reports an active transaction. -/
def safeRollback {σ : Type} (db : TxDb σ) : TxDb σ :=
  if db.inTransaction then (rollbackTx db).1 else db

/-- `TransactionManager.executeWithRollback`: `BEGIN`, run the work,
`COMMIT` on success; on a thrown error `safeRollback` and rethrow.
A `BEGIN` failure propagates directly (it happens before the `try`). -/
def executeWithRollback {σ : Type} (work : TxDb σ → TxDb σ × Option String)
    (db : TxDb σ) : TxDb σ × Option String :=
  match beginTx db with
  | (db1, some e) => (db1, some e)
  | (db1, none) =>
      match work db1 with
      | (db2, some e) => (safeRollback db2, some e)
      | (db2, none) =>
          match commitTx db2 with
          | (db3, some e) => (safeRollback db3, some e)
          | (db3, none) => (db3, none)

/-- Inside an open transaction, a unit of work only rewrites the working
state: the committed state and the savepoint stack are untouched and the
result agrees with the pure run of the steps. -/
theorem runSteps_in_tx {σ : Type} (w : List (WorkStep σ)) (c s : σ)
    (sps : List (String × σ)) :
    runSteps w ⟨c, some (s, sps)⟩ =
      (⟨c, some ((runStepsPure w s).1, sps)⟩, (runStepsPure w s).2) := by
  induction w generalizing s with
  | nil => rfl
  | cons step rest ih =>
      cases step with
      | write f => simpa [runSteps, runStepsPure, execWrite] using ih (f s)
      | throwErr m => rfl

/-- C5.  `executeWithRollback` is atomic.  If the work throws after partial
writes, the rollback restores the session exactly to its pre-transaction
state (the thrown error is surfaced); if the work completes, all of its
writes are committed. -/
theorem executeWithRollback_atomic {σ : Type} (w : List (WorkStep σ)) (db : TxDb σ)
    (h0 : db.tx = none) :
    (∀ e, (runStepsPure w db.committed).2 = some e →
        executeWithRollback (runSteps w) db = (db, some e)) ∧
    ((runStepsPure w db.committed).2 = none →
        executeWithRollback (runSteps w) db =
          (⟨(runStepsPure w db.committed).1, none⟩, none)) := by
  obtain ⟨c, tx⟩ := db
  cases h0
  constructor
  · intro e he
    simp [executeWithRollback, beginTx, runSteps_in_tx, he, safeRollback,
      TxDb.inTransaction, rollbackTx]
  · intro he
    simp [executeWithRollback, beginTx, runSteps_in_tx, he, commitTx]

/-- C5 witness: a work that increments the committed `5`, writes again, then
throws, leaves the session at exactly `⟨5, none⟩`. -/
theorem executeWithRollback_atomic_witness :
    (TxDb.mk (5 : Nat) none).tx = none ∧
    (runStepsPure [WorkStep.write (· + 1), .write (· * 2), .throwErr "boom"]
        (TxDb.mk (5 : Nat) none).committed).2 = some "boom" ∧
    executeWithRollback
        (runSteps [WorkStep.write (· + 1), .write (· * 2), .throwErr "boom"])
        ⟨5, none⟩ = (⟨5, none⟩, some "boom") :=
  ⟨rfl, rfl,
    (executeWithRollback_atomic
      [WorkStep.write (· + 1), .write (· * 2), .throwErr "boom"]
      ⟨5, none⟩ rfl).1 "boom" rfl⟩

/-- The `onError` policy of a nested-transaction step. -/
inductive OnError where
  | rollbackAll
  | continueNext
deriving Repr, DecidableEq

/-- One step of `executeNestedTransaction`: a savepoint name, an operation
and an error policy (the source defaults to `rollback`). -/
structure NestedStep (σ : Type) where
  name : String
  operation : List (WorkStep σ)
  onError : OnError

/-- The loop body of `executeNestedTransaction`: for each step create its
savepoint, run its operation and release on success; on a thrown error,
policy `rollback` rolls back to the savepoint and rethrows, aborting the
outer transaction, while `continue` rolls back to the savepoint, releases
it and proceeds with the next step. -/
def runNestedSteps {σ : Type} : List (NestedStep σ) → TxDb σ → TxDb σ × Option String
  | [], db => (db, none)
  | st :: rest, db =>
      match createSavepoint st.name db with
      | (db1, some e) => (db1, some e)
      | (db1, none) =>
          match runSteps st.operation db1 with
          | (db2, none) =>
              match releaseSavepoint st.name db2 with
              | (db3, some e) => (db3, some e)
              | (db3, none) => runNestedSteps rest db3
          | (db2, some e) =>
              match st.onError with
              | .rollbackAll =>
                  match rollbackToSavepoint st.name db2 with
                  | (db3, some e3) => (db3, some e3)
                  | (db3, none) => (db3, some e)
              | .continueNext =>
                  match rollbackToSavepoint st.name db2 with
                  | (db3, some e3) => (db3, some e3)
                  | (db3, none) =>
                      match releaseSavepoint st.name db3 with
                      | (db4, some e4) => (db4, some e4)
                      | (db4, none) => runNestedSteps rest db4

/-- `executeNestedTransaction` runs the savepoint loop as the unit of work
of `executeTransaction`; its transactional core is one
`executeWithRollback` attempt (the retry layer around it is modelled with
`executeTransactionLoop` below and does not re-run a successful attempt). -/
def executeNestedTransaction {σ : Type} (steps : List (NestedStep σ))
    (db : TxDb σ) : TxDb σ × Option String :=
  executeWithRollback (runNestedSteps steps) db

/-- C7.  Two nested steps, step 1 succeeding and step 2 throwing under
policy `continue`: the outer transaction commits, the committed state holds
exactly step 1's writes, and step 2's partial writes are discarded by the
rollback to its savepoint. -/
theorem executeNestedTransaction_continue_keeps_step1 {σ : Type} (s0 : σ)
    (n1 n2 : String) (pol : OnError) (ops1 ops2 : List (WorkStep σ)) (e : String)
    (h1 : (runStepsPure ops1 s0).2 = none)
    (h2 : (runStepsPure ops2 (runStepsPure ops1 s0).1).2 = some e) :
    executeNestedTransaction [⟨n1, ops1, pol⟩, ⟨n2, ops2, .continueNext⟩] ⟨s0, none⟩ =
      (⟨(runStepsPure ops1 s0).1, none⟩, none) := by
  simp [executeNestedTransaction, executeWithRollback, beginTx, runNestedSteps,
    createSavepoint, runSteps_in_tx, h1, h2, releaseSavepoint, popToName,
    rollbackToSavepoint, commitTx]

/-- C7 witness: step 1 appends `1`, step 2 appends `2` and throws; the
committed list is `[1]`. -/
theorem executeNestedTransaction_continue_keeps_step1_witness :
    (runStepsPure [WorkStep.write (· ++ [1])] ([] : List Nat)).2 = none ∧
    (runStepsPure [WorkStep.write (· ++ [2]), .throwErr "step2 fails"]
        (runStepsPure [WorkStep.write (· ++ [1])] ([] : List Nat)).1).2 =
      some "step2 fails" ∧
    executeNestedTransaction
        [⟨"sp1", [WorkStep.write (· ++ [1])], .rollbackAll⟩,
         ⟨"sp2", [WorkStep.write (· ++ [2]), .throwErr "step2 fails"], .continueNext⟩]
        ⟨([] : List Nat), none⟩ = (⟨[1], none⟩, none) :=
  ⟨rfl, rfl,
    executeNestedTransaction_continue_keeps_step1 [] "sp1" "sp2" .rollbackAll
      [WorkStep.write (· ++ [1])] [WorkStep.write (· ++ [2]), .throwErr "step2 fails"]
      "step2 fails" rfl rfl⟩

/-- Instrumented observation of one `executeTransaction` run: how many
times `attemptTransaction` ran, the backoff delays awaited between
attempts, the attempt number (if any) at which
`recoveryManager.handleTransactionFailure` was invoked, the
`recoveryAttempted` flag of the returned result, and its `success` flag. -/
structure RetryTrace where
  attempts : Nat
  delays : List Nat
  recoveryAtAttempt : Option Nat
  recoveryAttempted : Bool
  success : Bool
deriving Repr, DecidableEq

/-- The `while (attempt < opts.retryAttempts)` loop of `executeTransaction`.
`oracle a` is the outcome of attempt number `a` (`none` = success); `rec`
is the outcome of `handleTransactionFailure` — `some ok` a recovery result
with that success flag, `none` a recovery call that itself threw (the
source then falls through to the loop tail).  On failure the loop waits
`1000 * attempt` ms before the next attempt; recovery is invoked only when
`enableRecovery`, a recovery manager is present, and
`attempt === retryAttempts`.  `fuel` is a structural bound on the number
of iterations; callers pass `fuel = n`, which is enough since every
iteration increments `attempt`. -/
def executeTransactionGo (n : Nat) (er mgr : Bool) (oracle : Nat → Option String)
    (rec : Option Bool) : Nat → Nat → List Nat → RetryTrace
  | 0, attempt, delays => ⟨attempt, delays, none, false, false⟩
  | fuel + 1, attempt, delays =>
      if attempt < n then
        let a := attempt + 1
        match oracle a with
        | none => ⟨a, delays, none, false, true⟩
        | some _ =>
            if er = true ∧ mgr = true ∧ a = n then
              match rec with
              | some ok => ⟨a, delays, some a, true, ok⟩
              | none =>
                  if a < n then
                    executeTransactionGo n er mgr oracle rec fuel a (delays ++ [1000 * a])
                  else ⟨a, delays, some a, false, false⟩
            else
              if a < n then
                executeTransactionGo n er mgr oracle rec fuel a (delays ++ [1000 * a])
              else ⟨a, delays, none, false, false⟩
      else ⟨attempt, delays, none, false, false⟩

/-- `executeTransaction`'s retry layer, started at `attempt = 0`. -/
def executeTransactionLoop (n : Nat) (er mgr : Bool) (oracle : Nat → Option String)
    (rec : Option Bool) : RetryTrace :=
  executeTransactionGo n er mgr oracle rec n 0 []

/-- When every attempt fails, the loop makes exactly the remaining attempts,
waits `1000 * a` after each non-final failed attempt `a`, and invokes
recovery exactly at attempt `n` when enabled and present. -/
theorem executeTransactionGo_all_fail (n : Nat) (er mgr : Bool) (msg : String)
    (rec : Option Bool) :
    ∀ fuel a ds, a < n → n ≤ a + fuel →
    executeTransactionGo n er mgr (fun _ => some msg) rec fuel a ds =
      { attempts := n
        delays := ds ++ (List.range' (a + 1) (n - 1 - a)).map (fun j => 1000 * j)
        recoveryAtAttempt := if er = true ∧ mgr = true then some n else none
        recoveryAttempted := if (er = true ∧ mgr = true) ∧ rec.isSome then true else false
        success := if er = true ∧ mgr = true then rec.getD false else false } := by
  intro fuel
  induction fuel with
  | zero => intro a ds ha hle; omega
  | succ fuel ih =>
      intro a ds ha hle
      rw [executeTransactionGo]
      simp only [if_pos ha]
      rcases Nat.lt_or_ge (a + 1) n with hlt | hge
      · have hne : ¬ (a + 1 = n) := by omega
        have hrange : n - 1 - a = (n - 1 - (a + 1)) + 1 := by omega
        have hstep :
            (ds ++ [1000 * (a + 1)]) ++
              (List.range' (a + 1 + 1) (n - 1 - (a + 1))).map (fun j => 1000 * j) =
            ds ++ (List.range' (a + 1) (n - 1 - a)).map (fun j => 1000 * j) := by
          rw [hrange, List.range'_succ, List.map_cons, List.append_assoc]
          rfl
        cases rec with
        | none =>
            simp only [hne, and_false, if_false, if_pos hlt]
            rw [ih (a + 1) (ds ++ [1000 * (a + 1)]) hlt (by omega), hstep]
        | some ok =>
            simp only [hne, and_false, if_false, if_pos hlt]
            rw [ih (a + 1) (ds ++ [1000 * (a + 1)]) hlt (by omega), hstep]
      · have heq : a + 1 = n := by omega
        have hnlt : ¬ (a + 1 < n) := by omega
        have hr0 : n - 1 - a = 0 := by omega
        by_cases hem : er = true ∧ mgr = true
        · simp only [hem.1, hem.2, heq, and_self, true_and, if_true, if_pos]
          cases rec with
          | none => simp [hnlt, heq, hr0, hem]
          | some ok => simp [heq, hr0, hem]
        · have : ¬ (er = true ∧ mgr = true ∧ a + 1 = n) := by tauto
          simp only [this, if_false, hnlt, if_false]
          simp [hr0, hem, heq]

/-- The loop never invokes recovery at any attempt other than the last. -/
theorem executeTransactionGo_recovery_only_final (n : Nat) (er mgr : Bool)
    (oracle : Nat → Option String) (rec : Option Bool) :
    ∀ fuel a ds k,
      (executeTransactionGo n er mgr oracle rec fuel a ds).recoveryAtAttempt = some k →
      k = n := by
  intro fuel
  induction fuel with
  | zero => intro a ds k h; simp [executeTransactionGo] at h
  | succ fuel ih =>
      intro a ds k h
      rw [executeTransactionGo] at h
      by_cases ha : a < n
      · simp only [if_pos ha] at h
        cases horacle : oracle (a + 1) with
        | none => rw [horacle] at h; simp at h
        | some e =>
            rw [horacle] at h
            by_cases hcond : er = true ∧ mgr = true ∧ a + 1 = n
            · simp only [if_pos hcond] at h
              cases rec with
              | some ok => simp at h; omega
              | none =>
                  by_cases hlt : a + 1 < n
                  · simp only [if_pos hlt] at h; exact ih _ _ _ h
                  · simp only [if_neg hlt] at h; simp at h; omega
            · simp only [if_neg hcond] at h
              by_cases hlt : a + 1 < n
              · simp only [if_pos hlt] at h; exact ih _ _ _ h
              · simp only [if_neg hlt] at h; simp at h
      · simp only [if_neg ha] at h; simp at h

/-- C6.  When every attempt fails, `executeTransaction` runs the work
exactly `retryAttempts` times, waits `delay = 1000 * attemptNumber`
(linear backoff, base delay 1000ms) after each non-final attempt, and
hands exactly the final attempt to the recovery manager when
`enableRecovery` is set and a manager is present; moreover for any
attempt outcomes whatsoever, recovery is never invoked at an attempt
other than the last. -/
theorem executeTransaction_linear_backoff_final_recovery
    (n : Nat) (hn : 1 ≤ n) (er mgr : Bool) (msg : String) (rec : Option Bool)
    (oracle : Nat → Option String) :
    (executeTransactionLoop n er mgr (fun _ => some msg) rec).attempts = n ∧
    (executeTransactionLoop n er mgr (fun _ => some msg) rec).delays =
      (List.range' 1 (n - 1)).map (fun a => 1000 * a) ∧
    (executeTransactionLoop n er mgr (fun _ => some msg) rec).recoveryAtAttempt =
      (if er = true ∧ mgr = true then some n else none) ∧
    (∀ k, (executeTransactionLoop n er mgr oracle rec).recoveryAtAttempt = some k →
      k = n) := by
  have h := executeTransactionGo_all_fail n er mgr msg rec n 0 [] (by omega) (by omega)
  unfold executeTransactionLoop
  rw [h]
  refine ⟨rfl, by simp, rfl, ?_⟩
  intro k hk
  exact executeTransactionGo_recovery_only_final n er mgr oracle rec n 0 [] k hk

/-- C6 witness: three attempts all failing, recovery manager present and
enabled, recovery result unsuccessful: 3 attempts, delays 1000 and 2000,
recovery at attempt 3 only. -/
theorem executeTransaction_linear_backoff_final_recovery_witness :
    1 ≤ 3 ∧
    ((executeTransactionLoop 3 true true (fun _ => some "fail") (some false)).attempts = 3 ∧
     (executeTransactionLoop 3 true true (fun _ => some "fail") (some false)).delays =
       (List.range' 1 (3 - 1)).map (fun a => 1000 * a) ∧
     (executeTransactionLoop 3 true true (fun _ => some "fail") (some false)).recoveryAtAttempt =
       (if (true : Bool) = true ∧ (true : Bool) = true then some 3 else none) ∧
     (∀ k, (executeTransactionLoop 3 true true (fun _ => none) (some false)).recoveryAtAttempt
        = some k → k = 3)) :=
  ⟨by omega,
    executeTransaction_linear_backoff_final_recovery 3 (by omega) true true "fail"
      (some false) (fun _ => none)⟩

/-! ## MigrationRunner (src/unnamed/part_010, class MigrationRunner)

Migrations act on the application schema/data `α`; the runner separately
owns the `schema_migrations` table (version INTEGER PRIMARY KEY, name),
modelled as an insertion-ordered list of records.  `migration.up` may
throw, modelled as `Except`.  `Array.prototype.sort` with the comparator
`(a, b) => a.version - b.version` is a stable sort and is modelled with
the stable `List.insertionSort`. -/

structure Migration (α : Type) where
  version : Nat
  name : String
  up : α → Except String α

structure MigRecord where
  version : Nat
  name : String
deriving Repr, DecidableEq

structure MigDb (α : Type) where
  records : List MigRecord
  data : α
deriving Repr

/-- `getCurrentVersion`: `SELECT MAX(version) FROM schema_migrations`,
`0` when there are no rows (or the table does not exist yet). -/
def getCurrentVersion {α : Type} (db : MigDb α) : Nat :=
  db.records.foldr (fun r acc => Nat.max r.version acc) 0

/-- `INSERT INTO schema_migrations (version, name)`: the PRIMARY KEY on
`version` rejects a duplicate version. -/
def recordMigration (v : Nat) (name : String) (recs : List MigRecord) :
    Except String (List MigRecord) :=
  if recs.any (fun r => r.version = v) then
    .error "UNIQUE constraint failed: schema_migrations.version"
  else .ok (recs ++ [⟨v, name⟩])

/-- `applyMigration`: BEGIN, run `up`, insert the record, COMMIT; on any
error the transaction is rolled back, leaving the database unchanged. -/
def applyMigration {α : Type} (m : Migration α) (db : MigDb α) :
    Except String (MigDb α) :=
  match m.up db.data with
  | .error e => .error e
  | .ok d =>
      match recordMigration m.version m.name db.records with
      | .error e => .error e
      | .ok recs => .ok ⟨recs, d⟩

structure MigrationResult where
  success : Bool
  appliedMigrations : Nat
  errors : List String
  currentVersion : Nat
deriving Repr, DecidableEq

/-- The comparator `(a, b) => a.version - b.version` as an ordering. -/
def migLE {α : Type} (a b : Migration α) : Prop := a.version ≤ b.version

instance {α : Type} : DecidableRel (migLE (α := α)) :=
  fun a b => inferInstanceAs (Decidable (a.version ≤ b.version))

instance {α : Type} : IsTotal (Migration α) migLE :=
  ⟨fun a b => Nat.le_total a.version b.version⟩

instance {α : Type} : IsTrans (Migration α) migLE :=
  ⟨fun _ _ _ => Nat.le_trans⟩

/-- The pending migrations: those with `version > currentVersion`, sorted
ascending by version (stably). -/
def pendingOf {α : Type} (migs : List (Migration α)) (cur : Nat) : List (Migration α) :=
  List.insertionSort migLE (migs.filter (fun m => cur < m.version))

/-- The `for ... of pendingMigrations` loop: apply each in turn, counting
successes and recording the version reached; on the first failure push the
error message, clear `success` and `break`.  The third component lists the
versions for which `applyMigration` was invoked (attempted migrations). -/
def runLoop {α : Type} : List (Migration α) → MigDb α → MigrationResult → List Nat →
    MigrationResult × MigDb α × List Nat
  | [], db, res, att => (res, db, att)
  | m :: rest, db, res, att =>
      match applyMigration m db with
      | .ok db2 =>
          runLoop rest db2
            { res with
                appliedMigrations := res.appliedMigrations + 1
                currentVersion := m.version }
            (att ++ [m.version])
      | .error e =>
          ({ res with
              success := false
              errors := res.errors ++
                ["Failed to apply migration " ++ toString m.version ++ ": " ++ e] },
            db, att ++ [m.version])

/-- `runPendingMigrations`. -/
def runPendingMigrations {α : Type} (migs : List (Migration α)) (db : MigDb α) :
    MigrationResult × MigDb α × List Nat :=
  let cur := getCurrentVersion db
  runLoop (pendingOf migs cur) db ⟨true, 0, [], cur⟩ []

/-- The three migrations of the C3 scenario: v1 and v3 append a row, v2's
forward procedure throws. -/
def migsV123 : List (Migration (List Nat)) :=
  [⟨1, "v1", fun s => .ok (s ++ [1])⟩,
   ⟨2, "v2", fun _ => .error "boom"⟩,
   ⟨3, "v3", fun s => .ok (s ++ [3])⟩]

/-- C3.  With migrations `[v1, v2, v3]` where v2's forward procedure
throws, `runPendingMigrations` on an empty database applies only v1
(inside its own committed transaction: its record and its data write are
present), reports `appliedCount = 1`, `currentVersion = 1`, `success =
false` and one error; v2 was attempted and rolled back (no record, no data
write of v2), and v3 was never attempted. -/
theorem runPendingMigrations_stops_at_first_failure :
    (runPendingMigrations migsV123 ⟨[], []⟩).1.appliedMigrations = 1 ∧
    (runPendingMigrations migsV123 ⟨[], []⟩).1.currentVersion = 1 ∧
    (runPendingMigrations migsV123 ⟨[], []⟩).1.success = false ∧
    (runPendingMigrations migsV123 ⟨[], []⟩).1.errors ≠ [] ∧
    (runPendingMigrations migsV123 ⟨[], []⟩).2.1.records = [⟨1, "v1"⟩] ∧
    (runPendingMigrations migsV123 ⟨[], []⟩).2.1.data = [1] ∧
    (runPendingMigrations migsV123 ⟨[], []⟩).2.2 = [1, 2] ∧
    3 ∉ (runPendingMigrations migsV123 ⟨[], []⟩).2.2 := by
  refine ⟨rfl, rfl, rfl, ?_, rfl, rfl, rfl, by decide⟩
  intro h
  simpa [runPendingMigrations, pendingOf, migsV123, runLoop, applyMigration,
    recordMigration, getCurrentVersion] using congrArg List.length h

/-- Every recorded version is at most the current version. -/
theorem version_le_getCurrentVersion {α : Type} (db : MigDb α) (r : MigRecord)
    (hr : r ∈ db.records) : r.version ≤ getCurrentVersion db := by
  obtain ⟨recs, d⟩ := db
  simp only [getCurrentVersion] at *
  induction recs with
  | nil => cases hr
  | cons a l ih =>
      rcases List.mem_cons.mp hr with h | h
      · subst h; simp [Nat.le_max_left]
      · exact le_trans (ih h) (by simp [Nat.le_max_right])

/-- Appending one record takes the max of the old current version and the
new record's version. -/
theorem getCurrentVersion_append {α : Type} (recs : List MigRecord) (x : MigRecord)
    (d d' : α) :
    getCurrentVersion ⟨recs ++ [x], d⟩ =
      Nat.max (getCurrentVersion ⟨recs, d'⟩) x.version := by
  simp only [getCurrentVersion, List.foldr_append, List.foldr_cons, List.foldr_nil]
  induction recs with
  | nil => simp [Nat.max_comm]
  | cons a l ih =>
      simp only [List.foldr_cons, ih]
      exact (Nat.max_assoc _ _ _).symm

/-- If `a` precedes every element of `l`, ordered insertion puts it in
front. -/
theorem orderedInsert_of_le_all {α : Type} (a : Migration α) (l : List (Migration α))
    (h : ∀ c ∈ l, migLE a c) : List.orderedInsert migLE a l = a :: l := by
  cases l with
  | nil => rfl
  | cons c cs =>
      simp only [List.orderedInsert, if_pos (h c (List.mem_cons_self c cs))]

/-- Filtering commutes with ordered insertion into a sorted list. -/
theorem filter_orderedInsert {α : Type} (p : Migration α → Bool) (a : Migration α) :
    ∀ l : List (Migration α), l.Sorted migLE →
      (List.orderedInsert migLE a l).filter p =
        if p a then List.orderedInsert migLE a (l.filter p) else l.filter p := by
  intro l
  induction l with
  | nil =>
      intro _
      simp only [List.orderedInsert, List.filter]
      cases hpa : p a <;> simp [hpa]
  | cons b bs ih =>
      intro hs
      rw [List.sorted_cons] at hs
      obtain ⟨hb, hbs⟩ := hs
      by_cases hab : migLE a b
      · rw [List.orderedInsert, if_pos hab]
        cases hpa : p a with
        | false =>
            simp [List.filter, hpa]
        | true =>
            cases hpb : p b with
            | true =>
                simp [List.filter, hpa, hpb, List.orderedInsert, hab]
            | false =>
                simp only [List.filter, hpa, hpb, if_true]
                rw [orderedInsert_of_le_all a (bs.filter p)
                  (fun c hc => Trans.trans hab (hb c (List.mem_of_mem_filter hc)))]
      · rw [List.orderedInsert, if_neg hab]
        cases hpb : p b with
        | true =>
            cases hpa : p a with
            | true =>
                simp [List.filter, hpb, hpa, ih hbs, List.orderedInsert, hab]
            | false =>
                simp [List.filter, hpb, hpa, ih hbs]
        | false =>
            cases hpa : p a with
            | true =>
                simp [List.filter, hpb, hpa, ih hbs]
            | false =>
                simp [List.filter, hpb, hpa, ih hbs]

/-- Filtering commutes with the stable sort. -/
theorem filter_insertionSort {α : Type} (p : Migration α → Bool) :
    ∀ l : List (Migration α),
      (List.insertionSort migLE l).filter p = List.insertionSort migLE (l.filter p) := by
  intro l
  induction l with
  | nil => rfl
  | cons a l ih =>
      rw [List.insertionSort,
        filter_orderedInsert p a _ (List.sorted_insertionSort migLE l)]
      cases hpa : p a with
      | true => simp [List.filter, hpa, ih, List.insertionSort]
      | false => simp [List.filter, hpa, ih]

/-- Unfolding `runLoop` on a successful head migration. -/
theorem runLoop_cons_ok {α : Type} (m : Migration α) (rest : List (Migration α))
    (db db2 : MigDb α) (res : MigrationResult) (att0 : List Nat)
    (h : applyMigration m db = .ok db2) :
    runLoop (m :: rest) db res att0 =
      runLoop rest db2
        { res with
            appliedMigrations := res.appliedMigrations + 1
            currentVersion := m.version }
        (att0 ++ [m.version]) := by
  simp [runLoop, h]

/-- Unfolding `runLoop` on a failing head migration. -/
theorem runLoop_cons_err {α : Type} (m : Migration α) (rest : List (Migration α))
    (db : MigDb α) (res : MigrationResult) (att0 : List Nat) (e : String)
    (h : applyMigration m db = .error e) :
    runLoop (m :: rest) db res att0 =
      ({ res with
          success := false
          errors := res.errors ++
            ["Failed to apply migration " ++ toString m.version ++ ": " ++ e] },
        db, att0 ++ [m.version]) := by
  simp [runLoop, h]

/-- Every member of the pending list has version above the cut. -/
theorem pendingOf_mem_gt {α : Type} (migs : List (Migration α)) (cur : Nat) :
    ∀ m ∈ pendingOf migs cur, cur < m.version := by
  intro m hm
  have hmem : m ∈ migs.filter (fun m => decide (cur < m.version)) :=
    (List.perm_insertionSort migLE _).mem_iff.mp hm
  exact of_decide_eq_true (List.mem_filter.mp hmem).2

/-- With pairwise-distinct versions, the pending list is strictly
increasing in version. -/
theorem pendingOf_pairwise_lt {α : Type} (migs : List (Migration α)) (cur : Nat)
    (hnd : (migs.map (fun m => m.version)).Nodup) :
    (pendingOf migs cur).Pairwise (fun a b => a.version < b.version) := by
  have hsorted : (pendingOf migs cur).Pairwise migLE :=
    List.sorted_insertionSort migLE _
  have hfilter : ((migs.filter (fun m => decide (cur < m.version))).map
      (fun m => m.version)).Nodup :=
    hnd.sublist ((migs.filter_sublist).map _)
  have hnd2 : ((pendingOf migs cur).map (fun m => m.version)).Nodup :=
    (((List.perm_insertionSort migLE _).map _).nodup_iff).mpr hfilter
  have hne : (pendingOf migs cur).Pairwise (fun a b => a.version ≠ b.version) :=
    List.pairwise_map.mp hnd2
  exact (hsorted.and hne).imp (fun h => lt_of_le_of_ne h.1 h.2)

/-- Main lemma for idempotence: running `runLoop` on a strictly sorted
pending list whose versions all exceed the tracked current version yields
a state whose current version equals the reported one; and re-running the
loop on the still-pending remainder applies nothing, changes nothing, and
only attempts migrations above the reached version. -/
theorem runLoop_second_run {α : Type} :
    ∀ (pending : List (Migration α)) (db : MigDb α) (res : MigrationResult)
      (att0 : List Nat),
      pending.Pairwise (fun a b => a.version < b.version) →
      (∀ m ∈ pending, res.currentVersion < m.version) →
      getCurrentVersion db = res.currentVersion →
      res.currentVersion ≤ (runLoop pending db res att0).1.currentVersion ∧
      getCurrentVersion (runLoop pending db res att0).2.1 =
        (runLoop pending db res att0).1.currentVersion ∧
      (runLoop
          (pending.filter (fun m =>
            decide ((runLoop pending db res att0).1.currentVersion < m.version)))
          (runLoop pending db res att0).2.1
          ⟨true, 0, [], (runLoop pending db res att0).1.currentVersion⟩
          []).1.appliedMigrations = 0 ∧
      (runLoop
          (pending.filter (fun m =>
            decide ((runLoop pending db res att0).1.currentVersion < m.version)))
          (runLoop pending db res att0).2.1
          ⟨true, 0, [], (runLoop pending db res att0).1.currentVersion⟩
          []).1.currentVersion = (runLoop pending db res att0).1.currentVersion ∧
      (runLoop
          (pending.filter (fun m =>
            decide ((runLoop pending db res att0).1.currentVersion < m.version)))
          (runLoop pending db res att0).2.1
          ⟨true, 0, [], (runLoop pending db res att0).1.currentVersion⟩
          []).2.1 = (runLoop pending db res att0).2.1 ∧
      (∀ v ∈ (runLoop
          (pending.filter (fun m =>
            decide ((runLoop pending db res att0).1.currentVersion < m.version)))
          (runLoop pending db res att0).2.1
          ⟨true, 0, [], (runLoop pending db res att0).1.currentVersion⟩
          []).2.2, (runLoop pending db res att0).1.currentVersion < v) := by
  intro pending
  induction pending with
  | nil =>
      intro db res att0 _ _ hcur
      refine ⟨le_refl _, hcur, ?_⟩
      simp [runLoop]
  | cons m rest ih =>
      intro db res att0 hs hgt hcur
      rw [List.pairwise_cons] at hs
      obtain ⟨hmrest, hrest⟩ := hs
      have hcv : res.currentVersion < m.version := hgt m (List.mem_cons_self m rest)
      cases hup : m.up db.data with
      | error e =>
          have happly : applyMigration m db = .error e := by
            simp [applyMigration, hup]
          rw [runLoop_cons_err m rest db res att0 e happly]
          refine ⟨le_refl _, hcur, ?_⟩
          have hdec : decide (res.currentVersion < m.version) = true :=
            decide_eq_true hcv
          simp only [List.filter_cons, hdec, if_true]
          rw [runLoop_cons_err m _ db _ [] e happly]
          refine ⟨rfl, rfl, rfl, ?_⟩
          intro v hv
          simp only [List.nil_append, List.mem_singleton] at hv
          exact hv ▸ hcv
      | ok d =>
          have hany : db.records.any (fun r => decide (r.version = m.version)) = false := by
            cases h : db.records.any (fun r => decide (r.version = m.version)) with
            | false => rfl
            | true =>
                exfalso
                obtain ⟨r, hr, hrv⟩ := List.any_eq_true.mp h
                have hle := version_le_getCurrentVersion db r hr
                rw [of_decide_eq_true hrv, hcur] at hle
                omega
          have happly : applyMigration m db =
              .ok ⟨db.records ++ [⟨m.version, m.name⟩], d⟩ := by
            simp only [applyMigration, hup, recordMigration]
            rw [if_neg]
            intro hc
            rw [hany] at hc
            exact Bool.false_ne_true hc
          rw [runLoop_cons_ok m rest db _ res att0 happly]
          have hcur2 :
              getCurrentVersion (⟨db.records ++ [⟨m.version, m.name⟩], d⟩ : MigDb α) =
                m.version := by
            rw [getCurrentVersion_append db.records ⟨m.version, m.name⟩ d db.data]
            have hdb : getCurrentVersion (⟨db.records, db.data⟩ : MigDb α) =
                res.currentVersion := by
              cases db with
              | mk recs dd => exact hcur
            rw [hdb]
            exact Nat.max_eq_right (Nat.le_of_lt hcv)
          obtain ⟨h1, h2, h3, h4, h5, h6⟩ :=
            ih ⟨db.records ++ [⟨m.version, m.name⟩], d⟩
              { res with
                  appliedMigrations := res.appliedMigrations + 1
                  currentVersion := m.version }
              (att0 ++ [m.version]) hrest (fun m' hm' => hmrest m' hm') hcur2
          have hmver : m.version ≤
              (runLoop rest (⟨db.records ++ [⟨m.version, m.name⟩], d⟩ : MigDb α)
                { res with
                    appliedMigrations := res.appliedMigrations + 1
                    currentVersion := m.version }
                (att0 ++ [m.version])).1.currentVersion := h1
          have hdec : decide ((runLoop rest
              (⟨db.records ++ [⟨m.version, m.name⟩], d⟩ : MigDb α)
              { res with
                  appliedMigrations := res.appliedMigrations + 1
                  currentVersion := m.version }
              (att0 ++ [m.version])).1.currentVersion < m.version) = false :=
            decide_eq_false (Nat.not_lt.mpr hmver)
          refine ⟨le_trans (Nat.le_of_lt hcv) hmver, h2, ?_⟩
          simp only [List.filter_cons, hdec, if_false]
          exact ⟨h3, h4, h5, h6⟩

/-- C4.  For a migration set with pairwise-distinct versions (which
`validateMigrations` guarantees before the runner is invoked), running
`runPendingMigrations` twice in succession is idempotent: the second call
newly applies zero migrations, reports the same `currentVersion` as the
first call, leaves the database untouched, and every migration it attempts
(the unapplied remainder after a partial failure) is one whose version is
not among the committed migration records — already-committed migrations
are skipped. -/
theorem runPendingMigrations_idempotent {α : Type} (migs : List (Migration α))
    (db : MigDb α) (hnd : (migs.map (fun m => m.version)).Nodup) :
    (runPendingMigrations migs (runPendingMigrations migs db).2.1).1.appliedMigrations
      = 0 ∧
    (runPendingMigrations migs (runPendingMigrations migs db).2.1).1.currentVersion =
      (runPendingMigrations migs db).1.currentVersion ∧
    (runPendingMigrations migs (runPendingMigrations migs db).2.1).2.1 =
      (runPendingMigrations migs db).2.1 ∧
    ∀ v ∈ (runPendingMigrations migs (runPendingMigrations migs db).2.1).2.2,
      v ∉ (runPendingMigrations migs db).2.1.records.map (fun r => r.version) := by
  have hpair := pendingOf_pairwise_lt migs (getCurrentVersion db) hnd
  have hgt := pendingOf_mem_gt migs (getCurrentVersion db)
  obtain ⟨k1, k2, k3, k4, k5, k6⟩ :=
    runLoop_second_run (pendingOf migs (getCurrentVersion db)) db
      ⟨true, 0, [], getCurrentVersion db⟩ [] hpair hgt rfl
  have hpend2 :
      pendingOf migs
        (runLoop (pendingOf migs (getCurrentVersion db)) db
          ⟨true, 0, [], getCurrentVersion db⟩ []).1.currentVersion =
      (pendingOf migs (getCurrentVersion db)).filter
        (fun m =>
          decide ((runLoop (pendingOf migs (getCurrentVersion db)) db
            ⟨true, 0, [], getCurrentVersion db⟩ []).1.currentVersion < m.version)) := by
    unfold pendingOf
    rw [filter_insertionSort, List.filter_filter]
    congr 1
    apply List.filter_congr
    intro m _
    by_cases h :
        (runLoop (List.insertionSort migLE
            (migs.filter (fun m => decide (getCurrentVersion db < m.version)))) db
          ⟨true, 0, [], getCurrentVersion db⟩ []).1.currentVersion < m.version
    · have h0 : getCurrentVersion db < m.version := lt_of_le_of_lt k1 h
      simp [h, h0]
    · simp [h]
  simp only [runPendingMigrations]
  rw [k2, hpend2]
  refine ⟨k3, k4, k5, ?_⟩
  intro v hv hvmem
  have hvgt := k6 v hv
  obtain ⟨r, hr, hrv⟩ := List.mem_map.mp hvmem
  have hle := version_le_getCurrentVersion _ r hr
  rw [hrv, k2] at hle
  omega

/-- C4 witness: the C3 migration set (distinct versions 1, 2, 3; v2
throws).  The first run applies v1 and stops at v2; the second run applies
nothing, reports `currentVersion = 1` again, leaves the database as it
was, and attempts only versions not among the committed records. -/
theorem runPendingMigrations_idempotent_witness :
    (migsV123.map (fun m => m.version)).Nodup ∧
    ((runPendingMigrations migsV123
        (runPendingMigrations migsV123 ⟨[], []⟩).2.1).1.appliedMigrations = 0 ∧
     (runPendingMigrations migsV123
        (runPendingMigrations migsV123 ⟨[], []⟩).2.1).1.currentVersion =
       (runPendingMigrations migsV123 ⟨[], []⟩).1.currentVersion ∧
     (runPendingMigrations migsV123
        (runPendingMigrations migsV123 ⟨[], []⟩).2.1).2.1 =
       (runPendingMigrations migsV123 ⟨[], []⟩).2.1 ∧
     ∀ v ∈ (runPendingMigrations migsV123
        (runPendingMigrations migsV123 ⟨[], []⟩).2.1).2.2,
       v ∉ (runPendingMigrations migsV123 ⟨[], []⟩).2.1.records.map
         (fun r => r.version)) :=
  ⟨by decide,
    runPendingMigrations_idempotent migsV123 ⟨[], []⟩ (by decide)⟩

/-! ## ErrorRecoveryManager.attemptReconnection (src/unnamed/part_002)

The reconnection loop keeps a `retryCount` (reset to 0 on entry and on
success), calls the supplied connect function, and on failure increments
the counter, computes `delay = retryDelay * backoffMultiplier ^
(retryCount - 1)`, returns failure once `retryCount >= maxRetries`, and
otherwise waits and loops.  `connectOk a` tells whether the a-th
invocation of the connect function succeeds. -/

structure ReconnResult where
  success : Bool
  attemptsMade : Nat
  delays : List Nat
  retryCountAfter : Nat
  details : String
deriving Repr, DecidableEq

def attemptReconnectionGo (maxRetries retryDelay backoffMultiplier : Nat)
    (connectOk : Nat → Bool) : Nat → Nat → Nat → List Nat → ReconnResult
  | 0, _, calls, delays =>
      { success := false, attemptsMade := calls, delays := delays,
        retryCountAfter := maxRetries,
        details := "Maximum retry attempts exceeded" }
  | fuel + 1, retryCount, calls, delays =>
      if retryCount < maxRetries then
        if connectOk (calls + 1) then
          { success := true, attemptsMade := calls + 1, delays := delays,
            retryCountAfter := 0,
            details := "Successfully reconnected after 0 attempts" }
        else
          let rc := retryCount + 1
          let delay := retryDelay * backoffMultiplier ^ (rc - 1)
          if maxRetries ≤ rc then
            { success := false, attemptsMade := calls + 1, delays := delays,
              retryCountAfter := rc,
              details := "Failed to reconnect after maximum attempts" }
          else
            attemptReconnectionGo maxRetries retryDelay backoffMultiplier connectOk
              fuel rc (calls + 1) (delays ++ [delay])
      else
        { success := false, attemptsMade := calls, delays := delays,
          retryCountAfter := retryCount,
          details := "Maximum retry attempts exceeded" }

/-- `attemptReconnection`: `retryCount` starts at 0; the success message
interpolates `retryCount` after it has been reset, so it always reads
"after 0 attempts".  `fuel = maxRetries` bounds the loop, which is exact
since `retryCount` increments every failed iteration. -/
def attemptReconnection (maxRetries retryDelay backoffMultiplier : Nat)
    (connectOk : Nat → Bool) : ReconnResult :=
  attemptReconnectionGo maxRetries retryDelay backoffMultiplier connectOk maxRetries 0 0 []

/-- C8.  `maxRetries = 3` with a connect function failing on its first two
invocations and succeeding on the third: the result is successful, the
connect function ran exactly 3 times, the waits between attempts follow
`retryDelay * backoffMultiplier ^ (attempt - 1)` (attempts 1 and 2), and
the retry counter is reset to 0 by the success. -/
theorem attemptReconnection_two_failures_then_success
    (retryDelay backoffMultiplier : Nat) :
    attemptReconnection 3 retryDelay backoffMultiplier (fun a => decide (3 ≤ a)) =
      { success := true
        attemptsMade := 3
        delays := [retryDelay * backoffMultiplier ^ 0,
                   retryDelay * backoffMultiplier ^ 1]
        retryCountAfter := 0
        details := "Successfully reconnected after 0 attempts" } := rfl

/-! ## ErrorRecoveryManager consistency checks (src/unnamed/part_002)

The application tables referenced by `verifyAndCorrectInconsistencies`:
`users (id, dni, edad, created_at, updated_at)`, `auth_users (id)` and
`auth_sessions (id, user_id)`.  Nullable columns are `Option`s; timestamps
are abstract instants (`Nat`).  SQLite's `GROUP BY dni` puts all NULLs in
one group, and `ORDER BY created_at ASC` sorts NULLs first; the sort is
modelled with the stable `List.insertionSort` (ties keep table order). -/

structure UserRow where
  id : String
  dni : Option Int
  edad : Option Int
  created_at : Option Nat
  updated_at : Option Nat
deriving Repr, DecidableEq

structure SessionRow where
  id : String
  user_id : String
deriving Repr, DecidableEq

structure AuthUserRow where
  id : String
deriving Repr, DecidableEq

structure AppDb where
  users : List UserRow
  auth_users : List AuthUserRow
  auth_sessions : List SessionRow
deriving Repr, DecidableEq

/-- `ORDER BY created_at ASC` with SQLite NULLs-first semantics. -/
def optLE : Option Nat → Option Nat → Prop
  | none, _ => True
  | some _, none => False
  | some x, some y => x ≤ y

instance : DecidableRel optLE := fun a b =>
  match a, b with
  | none, _ => isTrue trivial
  | some _, none => isFalse (fun h => h)
  | some x, some y => inferInstanceAs (Decidable (x ≤ y))

def createdLE (a b : UserRow) : Prop := optLE a.created_at b.created_at

instance : DecidableRel createdLE := fun a b =>
  inferInstanceAs (Decidable (optLE a.created_at b.created_at))

instance : IsTotal UserRow createdLE := by
  constructor
  intro a b
  unfold createdLE optLE
  cases a.created_at <;> cases b.created_at <;> simp [Nat.le_total]

instance : IsTrans UserRow createdLE := by
  constructor
  intro a b c
  unfold createdLE optLE
  cases a.created_at <;> cases b.created_at <;> cases c.created_at <;> simp
  omega

/-- `optLE` is reflexive. -/
theorem optLE_refl (a : Option Nat) : optLE a a := by
  cases a <;> simp [optLE]

/-- `SELECT s.id FROM auth_sessions s LEFT JOIN auth_users u ON s.user_id
= u.id WHERE u.id IS NULL`. -/
def findOrphanedSessions (db : AppDb) : List String :=
  (db.auth_sessions.filter
    (fun s => !(db.auth_users.any (fun u => decide (u.id = s.user_id))))).map
    (fun s => s.id)

/-- `DELETE FROM auth_sessions WHERE id = ?`. -/
def deleteSessionById (i : String) (l : List SessionRow) : List SessionRow :=
  l.filter (fun s => !decide (s.id = i))

/-- `cleanOrphanedSessions`: delete each id, counting statements whose
`changes > 0`. -/
def cleanOrphanedSessions (ids : List String) (sessions : List SessionRow) :
    List SessionRow × Nat :=
  ids.foldl
    (fun acc i =>
      let after := deleteSessionById i acc.1
      (after, acc.2 + if after.length < acc.1.length then 1 else 0))
    (sessions, 0)

/-- `SELECT dni FROM users GROUP BY dni HAVING COUNT(*) > 1`. -/
def findDuplicateDnis (users : List UserRow) : List (Option Int) :=
  ((users.map (fun r => r.dni)).dedup).filter
    (fun d => decide (2 ≤ (users.filter (fun r => decide (r.dni = d))).length))

/-- `DELETE FROM users WHERE id = ?`. -/
def deleteUserById (i : String) (users : List UserRow) : List UserRow :=
  users.filter (fun r => !decide (r.id = i))

/-- SQL three-valued equality of the `WHERE dni = ?` bind: a NULL on
either side makes the comparison not-true, so binding NULL matches no
row (unlike `GROUP BY`, which does put all NULLs in one group). -/
def sqlDniEq (d : Option Int) (r : UserRow) : Bool :=
  match d, r.dni with
  | some v, some w => decide (v = w)
  | _, _ => false

/-- A row matched by the SQL bind carries that (non-NULL) dni. -/
theorem sqlDniEq_eq {d : Option Int} {r : UserRow}
    (h : sqlDniEq d r = true) : r.dni = d := by
  unfold sqlDniEq at h
  cases hd : d with
  | none => rw [hd] at h; simp at h
  | some v =>
      rw [hd] at h
      cases hr : r.dni with
      | none => rw [hr] at h; simp at h
      | some w => rw [hr] at h; simp at h; rw [h]

/-- For a non-NULL bind the SQL comparison coincides with plain equality
of the dni column. -/
theorem filter_sqlDniEq_of_ne_none {d : Option Int} (hd0 : d ≠ none)
    (us : List UserRow) :
    us.filter (fun r => sqlDniEq d r) = us.filter (fun r => decide (r.dni = d)) := by
  apply List.filter_congr
  intro r _
  cases hd : d with
  | none => exact absurd hd hd0
  | some v =>
      unfold sqlDniEq
      cases hr : r.dni with
      | none => simp
      | some w =>
          simp only []
          by_cases hvw : v = w
          · simp [hvw]
          · simp [hvw, Ne.symm hvw]

/-- The rows deleted for one duplicated dni: the rows matched by the
`WHERE dni = ?` bind, ordered by `created_at ASC`, minus the first
(oldest) row.  A NULL bind matches nothing. -/
def dupGroupSorted (d : Option Int) (users : List UserRow) : List UserRow :=
  List.insertionSort createdLE (users.filter (fun r => sqlDniEq d r))

/-- Resolve one duplicated dni against the current table: select the group
ordered by `created_at ASC`, keep the first row, delete the rest by id,
counting deletions with `changes > 0`. -/
def resolveOneDni (d : Option Int) (users : List UserRow) : List UserRow × Nat :=
  ((dupGroupSorted d users).drop 1).foldl
    (fun acc row =>
      let after := deleteUserById row.id acc.1
      (after, acc.2 + if after.length < acc.1.length then 1 else 0))
    (users, 0)

/-- `resolveDuplicateDnis`: resolve each duplicated dni in turn against
the evolving table. -/
def resolveDuplicateDnis (dups : List (Option Int)) (users : List UserRow) :
    List UserRow × Nat :=
  dups.foldl
    (fun acc d =>
      let step := resolveOneDni d acc.1
      (step.1, acc.2 + step.2))
    (users, 0)

/-- `WHERE edad <= 0 OR edad > 120 OR edad IS NULL`. -/
def invalidAge (r : UserRow) : Bool :=
  match r.edad with
  | none => true
  | some e => decide (e ≤ 0) || decide (120 < e)

/-- `WHERE dni < 1000000 OR dni > 99999999 OR dni IS NULL`. -/
def invalidDniRange (r : UserRow) : Bool :=
  match r.dni with
  | none => true
  | some x => decide (x < 1000000) || decide (99999999 < x)

/-- `[...new Set(ids)]`: deduplicate keeping first occurrences. -/
def dedupFirst : List String → List String
  | [] => []
  | x :: xs => x :: dedupFirst (xs.filter (fun y => !decide (y = x)))
termination_by l => l.length
decreasing_by
  simp only [List.length_cons]
  exact Nat.lt_succ_of_le (List.length_filter_le _ _)

/-- `findInvalidRecords`: ids with invalid age, then ids with out-of-range
dni, deduplicated. -/
def findInvalidRecords (users : List UserRow) : List String :=
  dedupFirst ((users.filter invalidAge).map (fun r => r.id) ++
    (users.filter invalidDniRange).map (fun r => r.id))

/-- `fixInvalidRecords`: delete each invalid row by id, counting
`changes > 0`. -/
def fixInvalidRecords (ids : List String) (users : List UserRow) :
    List UserRow × Nat :=
  ids.foldl
    (fun acc i =>
      let after := deleteUserById i acc.1
      (after, acc.2 + if after.length < acc.1.length then 1 else 0))
    (users, 0)

/-- `WHERE created_at IS NULL OR updated_at IS NULL`. -/
def findMissingTimestamps (users : List UserRow) : List String :=
  (users.filter
    (fun r => decide (r.created_at = none) || decide (r.updated_at = none))).map
    (fun r => r.id)

/-- `UPDATE users SET created_at = COALESCE(created_at, CURRENT_TIMESTAMP),
updated_at = COALESCE(updated_at, CURRENT_TIMESTAMP) WHERE id = ?`;
`changes` counts matched rows. -/
def updateMissingTimestamps (ids : List String) (users : List UserRow)
    (now : Nat) : List UserRow × Nat :=
  ids.foldl
    (fun acc i =>
      (acc.1.map (fun r =>
        if r.id = i then
          { r with
              created_at := some (r.created_at.getD now)
              updated_at := some (r.updated_at.getD now) }
        else r),
       acc.2 + if acc.1.any (fun r => decide (r.id = i)) then 1 else 0))
    (users, 0)

structure VerifyResult where
  inconsistenciesFound : Nat
  corrected : Nat
  errors : List String
deriving Repr, DecidableEq

/-- `verifyAndCorrectInconsistencies`: the four find/correct passes in
source order (orphaned sessions, duplicate dnis, invalid rows, missing
timestamps); each correction runs only when its finder reported
something. -/
def verifyAndCorrectInconsistencies (db : AppDb) (now : Nat) :
    VerifyResult × AppDb :=
  let orphans := findOrphanedSessions db
  let step1 := if 0 < orphans.length then
      cleanOrphanedSessions orphans db.auth_sessions
    else (db.auth_sessions, 0)
  let db1 := { db with auth_sessions := step1.1 }
  let dups := findDuplicateDnis db1.users
  let step2 := if 0 < dups.length then resolveDuplicateDnis dups db1.users
    else (db1.users, 0)
  let db2 := { db1 with users := step2.1 }
  let invalid := findInvalidRecords db2.users
  let step3 := if 0 < invalid.length then fixInvalidRecords invalid db2.users
    else (db2.users, 0)
  let db3 := { db2 with users := step3.1 }
  let missing := findMissingTimestamps db3.users
  let step4 := if 0 < missing.length then
      updateMissingTimestamps missing db3.users now
    else (db3.users, 0)
  let db4 := { db3 with users := step4.1 }
  ({ inconsistenciesFound :=
        orphans.length + dups.length + invalid.length + missing.length
     corrected := step1.2 + step2.2 + step3.2 + step4.2
     errors := [] }, db4)

/-- The ids deleted when one duplicated dni is resolved against a table:
all rows of the group except its oldest. -/
def delIdsFor (d : Option Int) (us : List UserRow) : List String :=
  ((dupGroupSorted d us).drop 1).map (fun x => x.id)

/-- The ids deleted when a list of duplicated dnis is resolved, each group
read off the original table. -/
def allDelIds (ds : List (Option Int)) (us : List UserRow) : List String :=
  ds.foldr (fun d acc => delIdsFor d us ++ acc) []

/-- Folding row deletions over a list of rows filters out exactly the rows
carrying one of the deleted ids. -/
theorem rowsDeleteFold_state (rows : List UserRow) :
    ∀ (us : List UserRow) (c : Nat),
      (rows.foldl
        (fun acc row =>
          let after := deleteUserById row.id acc.1
          (after, acc.2 + if after.length < acc.1.length then 1 else 0))
        (us, c)).1 =
      us.filter (fun r => !decide (r.id ∈ rows.map (fun x => x.id))) := by
  induction rows with
  | nil => intro us c; simp
  | cons row rest ih =>
      intro us c
      simp only [List.foldl_cons]
      rw [ih]
      unfold deleteUserById
      rw [List.filter_filter]
      apply List.filter_congr
      intro r _
      by_cases h1 : r.id = row.id <;> by_cases h2 : r.id ∈ rest.map (fun x => x.id) <;>
        simp [h1, h2]

/-- `resolveOneDni` deletes exactly the non-oldest rows of the group. -/
theorem resolveOneDni_state (d : Option Int) (us : List UserRow) :
    (resolveOneDni d us).1 =
      us.filter (fun r => !decide (r.id ∈ delIdsFor d us)) :=
  rowsDeleteFold_state ((dupGroupSorted d us).drop 1) us 0

/-- `allDelIds` distributes over append. -/
theorem allDelIds_append (xs ys : List (Option Int)) (us : List UserRow) :
    allDelIds (xs ++ ys) us = allDelIds xs us ++ allDelIds ys us := by
  induction xs with
  | nil => rfl
  | cons x xs ih => simp [allDelIds, List.foldr_cons] at ih ⊢; simp [ih]

/-- Membership in `allDelIds`. -/
theorem mem_allDelIds {i : String} {ds : List (Option Int)} {us : List UserRow} :
    i ∈ allDelIds ds us ↔ ∃ d ∈ ds, i ∈ delIdsFor d us := by
  induction ds with
  | nil => simp [allDelIds]
  | cons d ds ih => simp [allDelIds, List.foldr_cons] at ih ⊢; rw [ih]

/-- Rows of the sorted group, minus its head, are group members. -/
theorem mem_dupGroupSorted_drop {x : UserRow} {d : Option Int} {us : List UserRow}
    (hx : x ∈ (dupGroupSorted d us).drop 1) : x ∈ us ∧ x.dni = d := by
  have h1 : x ∈ dupGroupSorted d us := (List.drop_sublist 1 _).mem hx
  have h2 : x ∈ us.filter (fun r => sqlDniEq d r) :=
    (List.perm_insertionSort createdLE _).mem_iff.mp h1
  exact ⟨List.mem_of_mem_filter h2, sqlDniEq_eq (List.mem_filter.mp h2).2⟩

/-- In a table with unique ids, a row whose id was deleted for dni `d`
belongs to `d`'s group (and is one of the dropped rows). -/
theorem delIdsFor_mem_inv {r : UserRow} {d : Option Int} {us : List UserRow}
    (hnd : (us.map (fun x => x.id)).Nodup) (hr : r ∈ us)
    (hid : r.id ∈ delIdsFor d us) :
    r.dni = d ∧ r ∈ (dupGroupSorted d us).drop 1 := by
  obtain ⟨x, hx, hxid⟩ := List.mem_map.mp hid
  obtain ⟨hxus, hxdni⟩ := mem_dupGroupSorted_drop hx
  have hinj := List.inj_on_of_nodup_map hnd
  have hxr : x = r := hinj hxus hr hxid
  subst hxr
  exact ⟨hxdni, hx⟩

/-- Resolving a list of pairwise-distinct dnis (none seen before) deletes
exactly the union of the per-group non-oldest ids, each group read off the
original table: earlier deletions never touch a later group when ids are
unique. -/
theorem resolveDnis_fold_state (us : List UserRow)
    (hnd : (us.map (fun x => x.id)).Nodup) :
    ∀ (ds done : List (Option Int)) (c : Nat) (cur : List UserRow),
      cur = us.filter (fun r => !decide (r.id ∈ allDelIds done us)) →
      (∀ d ∈ ds, d ∉ done) → ds.Nodup →
      (ds.foldl
        (fun acc d =>
          let step := resolveOneDni d acc.1
          (step.1, acc.2 + step.2))
        (cur, c)).1 =
      us.filter (fun r => !decide (r.id ∈ allDelIds (done ++ ds) us)) := by
  intro ds
  induction ds with
  | nil =>
      intro done c cur hcur _ _
      simpa using hcur
  | cons d rest ih =>
      intro done c cur hcur hnotin hndds
      have hdnotdone : d ∉ done := hnotin d (List.mem_cons_self d rest)
      -- the group of d in the current table is the group of d in the original
      have hgroup : cur.filter (fun r => sqlDniEq d r) =
          us.filter (fun r => sqlDniEq d r) := by
        rw [hcur, List.filter_filter]
        apply List.filter_congr
        intro r hr
        cases hd : sqlDniEq d r with
        | false => simp [hd]
        | true =>
            have hdni : r.dni = d := sqlDniEq_eq hd
            have hnotdel : r.id ∉ allDelIds done us := by
              intro hmem
              obtain ⟨d', hd', hidd⟩ := mem_allDelIds.mp hmem
              have hd'eq := (delIdsFor_mem_inv hnd hr hidd).1
              rw [hdni] at hd'eq
              exact hdnotdone (hd'eq ▸ hd')
            simp [hd, hnotdel]
      have hsorted : dupGroupSorted d cur = dupGroupSorted d us := by
        unfold dupGroupSorted
        rw [hgroup]
      have hdel : delIdsFor d cur = delIdsFor d us := by
        unfold delIdsFor
        rw [hsorted]
      -- one resolution step
      have hstep : (resolveOneDni d cur).1 =
          us.filter (fun r => !decide (r.id ∈ allDelIds (done ++ [d]) us)) := by
        rw [resolveOneDni_state, hdel, hcur, List.filter_filter]
        apply List.filter_congr
        intro r _
        have hiff : r.id ∈ allDelIds (done ++ [d]) us ↔
            r.id ∈ allDelIds done us ∨ r.id ∈ delIdsFor d us := by
          rw [allDelIds_append]
          simp [allDelIds, mem_allDelIds]
        by_cases h1 : r.id ∈ delIdsFor d us <;>
          by_cases h2 : r.id ∈ allDelIds done us <;>
            simp [h1, h2, hiff]
      simp only [List.foldl_cons]
      rw [show done ++ d :: rest = (done ++ [d]) ++ rest by simp]
      exact ih (done ++ [d]) _ _ hstep
        (fun d'' hd'' => by
          rw [List.mem_append, List.mem_singleton]
          rintro (h | h)
          · exact hnotin d'' (List.mem_cons_of_mem d hd'') h
          · exact (List.nodup_cons.mp hndds).1 (h ▸ hd''))
        (List.nodup_cons.mp hndds).2

/-- `resolveDuplicateDnis` on a duplicate-free list of keys filters out
exactly the per-group non-oldest rows. -/
theorem resolveDuplicateDnis_state (us : List UserRow)
    (hnd : (us.map (fun x => x.id)).Nodup) (dups : List (Option Int))
    (hnddups : dups.Nodup) :
    (resolveDuplicateDnis dups us).1 =
      us.filter (fun r => !decide (r.id ∈ allDelIds dups us)) := by
  unfold resolveDuplicateDnis
  have h0 : us = us.filter (fun r => !decide (r.id ∈ allDelIds [] us)) := by
    simp [allDelIds]
  have := resolveDnis_fold_state us hnd dups [] 0 us h0 (by simp) hnddups
  simpa using this

/-- After resolution, each duplicated group retains exactly one row: a
member of the original group with minimal `created_at`. -/
theorem dup_group_after_resolution (us : List UserRow)
    (hnd : (us.map (fun x => x.id)).Nodup) (d : Option Int) (hd0 : d ≠ none)
    (dups : List (Option Int)) (hdups : d ∈ dups)
    (hlen : 2 ≤ (us.filter (fun r => decide (r.dni = d))).length) :
    ∃ keep : UserRow,
      (us.filter (fun r => !decide (r.id ∈ allDelIds dups us))).filter
          (fun r => decide (r.dni = d)) = [keep] ∧
      keep ∈ us ∧ keep.dni = d ∧
      ∀ r ∈ us, r.dni = d → optLE keep.created_at r.created_at := by
  have hperm : List.Perm (dupGroupSorted d us)
      (us.filter (fun r => decide (r.dni = d))) := by
    rw [show us.filter (fun r => decide (r.dni = d)) =
        us.filter (fun r => sqlDniEq d r) from
      (filter_sqlDniEq_of_ne_none hd0 us).symm]
    exact List.perm_insertionSort createdLE _
  have hpair0 : (dupGroupSorted d us).Pairwise createdLE :=
    List.sorted_insertionSort createdLE _
  cases hS : dupGroupSorted d us with
  | nil =>
      rw [hS] at hperm
      rw [← hperm.length_eq] at hlen
      simp at hlen
  | cons hd tl =>
      rw [hS] at hperm hpair0
      have hgnodup : ((us.filter (fun r => decide (r.dni = d))).map
          (fun x => x.id)).Nodup :=
        hnd.sublist ((us.filter_sublist).map _)
      have hsnodup : ((hd :: tl).map (fun x => x.id)).Nodup :=
        ((hperm.map _).nodup_iff).mpr hgnodup
      rw [List.map_cons, List.nodup_cons] at hsnodup
      obtain ⟨hhd_notin, _⟩ := hsnodup
      have hdelids : delIdsFor d us = tl.map (fun x => x.id) := by
        unfold delIdsFor
        rw [hS]
        rfl
      have hiff : ∀ r ∈ us, r.dni = d →
          (r.id ∈ allDelIds dups us ↔ r.id ∈ tl.map (fun x => x.id)) := by
        intro r hr hrd
        constructor
        · intro hmem
          obtain ⟨d', hd', hidd⟩ := mem_allDelIds.mp hmem
          have hdd' := (delIdsFor_mem_inv hnd hr hidd).1
          rw [hrd] at hdd'
          rw [← hdelids]
          exact hdd' ▸ hidd
        · intro hmem
          exact mem_allDelIds.mpr ⟨d, hdups, hdelids ▸ hmem⟩
      -- survivors of the group are exactly the head of the sorted group
      have hsurv :
          (us.filter (fun r => !decide (r.id ∈ allDelIds dups us))).filter
            (fun r => decide (r.dni = d)) =
          (us.filter (fun r => decide (r.dni = d))).filter
            (fun r => !decide (r.id ∈ tl.map (fun x => x.id))) := by
        rw [List.filter_filter, List.filter_filter]
        apply List.filter_congr
        intro r hr
        by_cases hrd : r.dni = d
        · by_cases hin : r.id ∈ allDelIds dups us
          · have := (hiff r hr hrd).mp hin
            simp [hrd, hin, this]
          · have : r.id ∉ tl.map (fun x => x.id) :=
              fun hmem => hin ((hiff r hr hrd).mpr hmem)
            simp [hrd, hin, this]
        · simp [hrd]
      have hpass : (fun r : UserRow => !decide (r.id ∈ tl.map (fun x => x.id))) hd
          = true := by
        simp [hhd_notin]
      have hzero : List.countP
          (fun r => !decide (r.id ∈ tl.map (fun x => x.id))) tl = 0 := by
        rw [List.countP_eq_zero]
        intro x hx
        simp
        exact ⟨x, hx, rfl⟩
      have hcount :
          ((us.filter (fun r => decide (r.dni = d))).filter
            (fun r => !decide (r.id ∈ tl.map (fun x => x.id)))).length = 1 := by
        rw [← List.countP_eq_length_filter, ← hperm.countP_eq, List.countP_cons,
          hzero]
        simp [hhd_notin]
      have hhd_mem :
          hd ∈ (us.filter (fun r => decide (r.dni = d))).filter
            (fun r => !decide (r.id ∈ tl.map (fun x => x.id))) := by
        refine List.mem_filter.mpr ⟨?_, ?_⟩
        · exact hperm.mem_iff.mp (List.mem_cons_self hd tl)
        · simpa using hhd_notin
      obtain ⟨a, ha⟩ := List.length_eq_one.mp hcount
      rw [ha] at hhd_mem
      have haeq : a = hd := (List.mem_singleton.mp hhd_mem).symm
      subst haeq
      have hamem : a ∈ us.filter (fun r => decide (r.dni = d)) :=
        hperm.mem_iff.mp (List.mem_cons_self a tl)
      refine ⟨a, by rw [hsurv, ha], List.mem_of_mem_filter hamem,
        of_decide_eq_true (List.mem_filter.mp hamem).2, ?_⟩
      intro r hr hrd
      have hrg : r ∈ us.filter (fun x => decide (x.dni = d)) :=
        List.mem_filter.mpr ⟨hr, decide_eq_true hrd⟩
      rcases List.mem_cons.mp (hperm.mem_iff.mpr hrg) with h | h
      · rw [h]
        exact optLE_refl _
      · exact (List.pairwise_cons.mp hpair0).1 r h

/-- The duplicate keys reported by the `GROUP BY ... HAVING` query are
pairwise distinct. -/
theorem findDuplicateDnis_nodup (us : List UserRow) :
    (findDuplicateDnis us).Nodup :=
  (List.nodup_dedup _).filter _

/-- A reported duplicate key has at least two rows. -/
theorem findDuplicateDnis_mem_len {d : Option Int} {us : List UserRow}
    (hd : d ∈ findDuplicateDnis us) :
    2 ≤ (us.filter (fun r => decide (r.dni = d))).length :=
  of_decide_eq_true (List.mem_filter.mp hd).2

/-- On a dataset where all four finders come up empty,
`verifyAndCorrectInconsistencies` reports zero inconsistencies, corrects
nothing, and leaves the database unchanged. -/
theorem verifyAndCorrect_clean (db : AppDb) (now : Nat)
    (h1 : findOrphanedSessions db = [])
    (h2 : findDuplicateDnis db.users = [])
    (h3 : findInvalidRecords db.users = [])
    (h4 : findMissingTimestamps db.users = []) :
    verifyAndCorrectInconsistencies db now =
      ({ inconsistenciesFound := 0, corrected := 0, errors := [] }, db) := by
  simp [verifyAndCorrectInconsistencies, h1, h2, h3, h4]

/-- `dupGroupSorted` of a NULL key is empty: the SQL bind matches no row. -/
theorem sqlDniEq_none (r : UserRow) : sqlDniEq none r = false := by
  unfold sqlDniEq
  cases r.dni <;> rfl

/-- The per-group SELECT with a NULL bind returns no rows. -/
theorem dupGroupSorted_none (us : List UserRow) : dupGroupSorted none us = [] := by
  unfold dupGroupSorted
  rw [show us.filter (fun r => sqlDniEq none r) = [] from
    List.filter_eq_nil_iff.mpr (fun r _ => by simp [sqlDniEq_none])]
  rfl

/-- Resolving the NULL group deletes nothing. -/
theorem delIdsFor_none (us : List UserRow) : delIdsFor none us = [] := by
  unfold delIdsFor
  rw [dupGroupSorted_none]
  rfl

/-- A table with two NULL-dni rows: `GROUP BY dni` reports the NULL group
as duplicated. -/
def nullDupUsers : List UserRow :=
  [⟨"x", none, some 30, some 1, some 1⟩,
   ⟨"y", none, some 40, some 2, some 2⟩]

/-- C9 counterexample.  The duplicate scan reports the NULL-dni group
(`GROUP BY` treats NULLs as one group), but the per-group
`SELECT ... WHERE dni = ?` binds NULL and matches no rows, so the
resolution deletes nothing: both rows of the reported duplicate group
survive, refuting "keeps exactly the oldest record and deletes all the
others" for that group. -/
theorem resolveDuplicates_null_group_counterexample :
    findDuplicateDnis nullDupUsers = [none] ∧
    (resolveDuplicateDnis (findDuplicateDnis nullDupUsers) nullDupUsers).1 =
      nullDupUsers ∧
    ((resolveDuplicateDnis (findDuplicateDnis nullDupUsers) nullDupUsers).1.filter
        (fun r => decide (r.dni = (none : Option Int)))).length = 2 ∧
    ¬ ∃ keep : UserRow,
        (resolveDuplicateDnis (findDuplicateDnis nullDupUsers) nullDupUsers).1.filter
          (fun r => decide (r.dni = (none : Option Int))) = [keep] := by
  refine ⟨by decide, by decide, by decide, ?_⟩
  rintro ⟨keep, hk⟩
  have h3 : ((resolveDuplicateDnis (findDuplicateDnis nullDupUsers)
      nullDupUsers).1.filter
        (fun r => decide (r.dni = (none : Option Int)))).length = 2 := by decide
  rw [hk] at h3
  simp at h3

/-- C9 (amended).  First half: for every non-NULL key the duplicate-scan
reports, the resolution keeps exactly one row of that key — a member of
the original group with minimal `created_at` (the oldest) — and deletes
all the others; NULL-dni rows always survive (the NULL bind of the
per-group SELECT matches no rows, so a reported NULL duplicate group is
left untouched), and rows of non-duplicated keys all survive.  Second
half: on an already-clean dataset (all four finders empty) the
verification reports zero inconsistencies found and zero corrected and
leaves the data untouched, so the correction is idempotent on its own
output domain. -/
theorem resolveDuplicates_keeps_oldest_and_clean_reports_zero
    (users : List UserRow) (hnd : (users.map (fun r => r.id)).Nodup)
    (db : AppDb) (now : Nat)
    (h1 : findOrphanedSessions db = [])
    (h2 : findDuplicateDnis db.users = [])
    (h3 : findInvalidRecords db.users = [])
    (h4 : findMissingTimestamps db.users = []) :
    (∀ d ∈ findDuplicateDnis users, d ≠ none →
      ∃ keep : UserRow,
        (resolveDuplicateDnis (findDuplicateDnis users) users).1.filter
            (fun r => decide (r.dni = d)) = [keep] ∧
        keep ∈ users ∧ keep.dni = d ∧
        ∀ r ∈ users, r.dni = d → optLE keep.created_at r.created_at) ∧
    (∀ r ∈ users, r.dni = none →
      r ∈ (resolveDuplicateDnis (findDuplicateDnis users) users).1) ∧
    (∀ r ∈ users, r.dni ∉ findDuplicateDnis users →
      r ∈ (resolveDuplicateDnis (findDuplicateDnis users) users).1) ∧
    verifyAndCorrectInconsistencies db now =
      ({ inconsistenciesFound := 0, corrected := 0, errors := [] }, db) := by
  have hstate := resolveDuplicateDnis_state users hnd (findDuplicateDnis users)
    (findDuplicateDnis_nodup users)
  refine ⟨?_, ?_, ?_, verifyAndCorrect_clean db now h1 h2 h3 h4⟩
  · intro d hd hd0
    obtain ⟨keep, hkeq, hmem, hdni, hmin⟩ :=
      dup_group_after_resolution users hnd d hd0 (findDuplicateDnis users) hd
        (findDuplicateDnis_mem_len hd)
    refine ⟨keep, ?_, hmem, hdni, hmin⟩
    rw [hstate]
    exact hkeq
  · intro r hr hrnone
    rw [hstate]
    refine List.mem_filter.mpr ⟨hr, ?_⟩
    simp only [Bool.not_eq_true', decide_eq_false_iff_not]
    intro hmem
    obtain ⟨d', hd', hidd⟩ := mem_allDelIds.mp hmem
    have hment := (delIdsFor_mem_inv hnd hr hidd).1
    rw [hrnone] at hment
    rw [← hment, delIdsFor_none] at hidd
    exact (List.not_mem_nil _) hidd
  · intro r hr hnotdup
    rw [hstate]
    refine List.mem_filter.mpr ⟨hr, ?_⟩
    simp only [Bool.not_eq_true', decide_eq_false_iff_not]
    intro hmem
    obtain ⟨d', hd', hidd⟩ := mem_allDelIds.mp hmem
    exact hnotdup (((delIdsFor_mem_inv hnd hr hidd).1).symm ▸ hd')

/-- The concrete table for the C9 witness: dni 5 appears three times
(oldest is "b", created at 3), dni 7 once. -/
def witnessUsers : List UserRow :=
  [⟨"a", some 5, some 30, some 10, some 10⟩,
   ⟨"b", some 5, some 31, some 3, some 3⟩,
   ⟨"c", some 7, some 32, some 1, some 1⟩,
   ⟨"d", some 5, some 33, some 20, some 20⟩]

/-- C9 witness: the duplicate-key table above, and the empty database as
the already-clean dataset. -/
theorem resolveDuplicates_keeps_oldest_witness :
    ((witnessUsers.map (fun r => r.id)).Nodup ∧
     findOrphanedSessions ⟨[], [], []⟩ = [] ∧
     findDuplicateDnis (AppDb.users ⟨[], [], []⟩) = [] ∧
     findInvalidRecords (AppDb.users ⟨[], [], []⟩) = [] ∧
     findMissingTimestamps (AppDb.users ⟨[], [], []⟩) = []) ∧
    ((∀ d ∈ findDuplicateDnis witnessUsers, d ≠ none →
      ∃ keep : UserRow,
        (resolveDuplicateDnis (findDuplicateDnis witnessUsers) witnessUsers).1.filter
            (fun r => decide (r.dni = d)) = [keep] ∧
        keep ∈ witnessUsers ∧ keep.dni = d ∧
        ∀ r ∈ witnessUsers, r.dni = d → optLE keep.created_at r.created_at) ∧
     (∀ r ∈ witnessUsers, r.dni = none →
       r ∈ (resolveDuplicateDnis (findDuplicateDnis witnessUsers) witnessUsers).1) ∧
     (∀ r ∈ witnessUsers, r.dni ∉ findDuplicateDnis witnessUsers →
       r ∈ (resolveDuplicateDnis (findDuplicateDnis witnessUsers) witnessUsers).1) ∧
     verifyAndCorrectInconsistencies ⟨[], [], []⟩ 0 =
       ({ inconsistenciesFound := 0, corrected := 0, errors := [] }, ⟨[], [], []⟩)) :=
  ⟨⟨by decide, rfl, rfl, by simp [findInvalidRecords, dedupFirst], rfl⟩,
    resolveDuplicates_keeps_oldest_and_clean_reports_zero witnessUsers (by decide)
      ⟨[], [], []⟩ 0 rfl rfl (by simp [findInvalidRecords, dedupFirst]) rfl⟩

/-! ## DatabaseHealthMonitor (src/src/main/services/database-health-monitor.ts)

`performHealthCheck` collects issues from five checks (connectivity,
latency, corruption via the recovery manager, consistency, rolling error
rate) and declares the check healthy exactly when the collected issues
contain none of severity `critical`.  The per-check outcomes are the
inputs of the model; the error rate is the fraction of recent metric
samples with a positive `errorCount` (a rational, standing for the JS
float). -/

inductive Severity where
  | low
  | medium
  | high
  | critical
deriving Repr, DecidableEq

inductive IssueType where
  | performance
  | corruption
  | connection
  | consistency
deriving Repr, DecidableEq

structure HealthIssue where
  severity : Severity
  type : IssueType
  message : String
deriving Repr, DecidableEq

structure CorruptionCheckResult where
  isCorrupted : Bool
  errors : List String
  repairAttempted : Bool
  repairSuccessful : Option Bool
deriving Repr, DecidableEq

structure PerformanceThresholds where
  responseTimeWarning : Nat
  responseTimeCritical : Nat
  errorRateWarning : ℚ
  errorRateCritical : ℚ
deriving Repr, DecidableEq

structure HealthCheckInputs where
  connectivityOk : Bool
  perfResponseTime : Nat
  corruption : Option CorruptionCheckResult
  consistency : VerifyResult
  recentErrorCounts : List Nat
  checkThrows : Bool
deriving Repr, DecidableEq

structure HealthCheckOutcome where
  healthy : Bool
  issues : List HealthIssue
  recommendations : List String
deriving Repr, DecidableEq

/-- The overall-health determination of the source: filter the critical
issues and report healthy iff there are none. -/
def mkHealthResult (issues : List HealthIssue) (recs : List String) :
    HealthCheckOutcome :=
  { healthy := decide
      ((issues.filter (fun i => decide (i.severity = Severity.critical))).length = 0)
    issues := issues
    recommendations := recs }

/-- `performHealthCheck`: connectivity, performance thresholds (critical /
warning), corruption (when a recovery manager is present), consistency
(severity `high` above 10 findings, else `medium`), and the rolling error
rate (critical / warning); a thrown error inside the check produces the
catch-path result with a single critical connection issue. -/
def performHealthCheck (th : PerformanceThresholds) (inp : HealthCheckInputs) :
    HealthCheckOutcome :=
  if inp.checkThrows then
    { healthy := false
      issues := [⟨.critical, .connection, "Health check failed"⟩]
      recommendations := ["Check database connectivity and system resources"] }
  else
    let issues0 : List HealthIssue :=
      if inp.connectivityOk then []
      else [⟨.critical, .connection, "Database connectivity failed"⟩]
    let issues1 :=
      if th.responseTimeCritical < inp.perfResponseTime then
        issues0 ++ [⟨.critical, .performance, "Response time critical"⟩]
      else if th.responseTimeWarning < inp.perfResponseTime then
        issues0 ++ [⟨.medium, .performance, "Response time elevated"⟩]
      else issues0
    let recs1 : List String :=
      if th.responseTimeCritical < inp.perfResponseTime then
        ["Consider optimizing queries or increasing system resources"]
      else []
    let issues2 :=
      match inp.corruption with
      | some c =>
          if c.isCorrupted then
            issues1 ++ [⟨.critical, .corruption, "Database corruption detected"⟩]
          else issues1
      | none => issues1
    let recs2 := recs1 ++
      (match inp.corruption with
       | some c =>
           if c.isCorrupted then
             if c.repairSuccessful = some true then
               ["Corruption was automatically repaired, but consider investigating the root cause"]
             else ["Manual intervention required to repair database corruption"]
           else []
       | none => [])
    let issues3 :=
      if 0 < inp.consistency.inconsistenciesFound then
        issues2 ++
          [⟨if 10 < inp.consistency.inconsistenciesFound then Severity.high
            else Severity.medium, .consistency, "Data inconsistencies found"⟩]
      else issues2
    let recs3 := recs2 ++
      (if 0 < inp.consistency.inconsistenciesFound ∧ 0 < inp.consistency.corrected
       then ["inconsistencies were automatically corrected"] else [])
    let errorRate : ℚ :=
      if inp.recentErrorCounts.length = 0 then 0
      else ((inp.recentErrorCounts.filter (fun c => decide (0 < c))).length : ℚ) /
        (inp.recentErrorCounts.length : ℚ)
    let issues4 :=
      if th.errorRateCritical < errorRate then
        issues3 ++ [⟨.critical, .performance, "High error rate"⟩]
      else if th.errorRateWarning < errorRate then
        issues3 ++ [⟨.medium, .performance, "Elevated error rate"⟩]
      else issues3
    mkHealthResult issues4 recs3

/-- The health determination is exactly "no critical issue". -/
theorem mkHealthResult_healthy_iff (issues : List HealthIssue) (recs : List String) :
    (mkHealthResult issues recs).healthy = true ↔
      ∀ i ∈ issues, i.severity ≠ Severity.critical := by
  simp only [mkHealthResult, decide_eq_true_iff]
  rw [List.length_eq_zero, List.filter_eq_nil_iff]
  simp

/-- C10.  For every threshold configuration and every combination of check
outcomes, `performHealthCheck` reports `healthy = true` exactly when the
issue list contains no issue of severity `critical`; in particular issues
of severity `low`, `medium` or `high` alone never make the result
unhealthy. -/
theorem performHealthCheck_healthy_iff_no_critical
    (th : PerformanceThresholds) (inp : HealthCheckInputs) :
    (performHealthCheck th inp).healthy = true ↔
      ∀ i ∈ (performHealthCheck th inp).issues, i.severity ≠ Severity.critical := by
  cases hthrow : inp.checkThrows with
  | true => simp [performHealthCheck, hthrow]
  | false =>
      simp only [performHealthCheck, hthrow, Bool.false_eq_true, if_false]
      exact mkHealthResult_healthy_iff _ _
